import Mathlib

/-!
Shallow embedding of the `rgis-layers` crate (`src/rgis-layers/src/lib.rs`) of
the `rgis-map` repository: the layer store (`Layers`), layer creation
(`UnassignedLayer::from_geometry`, `Feature::from_geometry`), palette color
assignment, and the per-event bodies of the bevy systems
(`handle_toggle_layer_visibility_events`, `handle_update_color_events`,
`handle_delete_layer_events`, `handle_move_layer_events`,
`handle_map_clicked_events`).

Modelling conventions:
* `f64` coordinates are modelled with `Int`: the store logic only compares
  coordinates and takes min/max, never performs rounding arithmetic.
* `geo::Geometry<f64>` is an external-crate enum; we model the `Point` and
  `MultiPoint` constructors, which exercise every behaviour the store
  depends on (`bounding_rect` returning `None` for an empty geometry,
  coordinate containment, per-coordinate CRS transformation).
* The CRS transformation (`proj` / `geo_proj_js`, an external black box
  applied coordinate-wise) is a function parameter `Coord → Except String Coord`.
* Global mutable state (the `static COUNTER: AtomicUsize` used for palette
  cycling) and `rgis_layer_id::LayerId::new()` are modelled by explicit
  state threading.
* `usize` arithmetic wraps modulo `2 ^ 64` (release-mode Rust semantics);
  in debug builds the same overflow aborts. See `new_z_index_of`.
-/

namespace RgisLayers

/-- A planar coordinate (`geo::Coordinate<f64>`, modelled over `Int`). -/
structure Coord where
  x : Int
  y : Int
deriving DecidableEq, Repr

/-- An axis-aligned rectangle (`geo::Rect<f64>`). -/
structure Rect where
  min : Coord
  max : Coord
deriving DecidableEq, Repr

/-- `geo` rectangle/coordinate containment used by `Feature::contains`. -/
def Rect.containsCoord (r : Rect) (c : Coord) : Bool :=
  r.min.x ≤ c.x && c.x ≤ r.max.x && r.min.y ≤ c.y && c.y ≤ r.max.y

/-- The `Point` and `MultiPoint` cases of `geo::Geometry<f64>`. -/
inductive Geometry where
  | point (c : Coord)
  | multiPoint (cs : List Coord)
deriving DecidableEq, Repr

/-- The coordinates of a geometry. -/
def Geometry.coords : Geometry → List Coord
  | .point c => [c]
  | .multiPoint cs => cs

/-- Grow a rectangle to cover one more coordinate. -/
def Rect.merge (r : Rect) (c : Coord) : Rect :=
  ⟨⟨Min.min r.min.x c.x, Min.min r.min.y c.y⟩,
   ⟨Max.max r.max.x c.x, Max.max r.max.y c.y⟩⟩

/-- Envelope of a coordinate list: `none` when empty (this is how
`geo`'s `bounding_rect()` yields `None` on an empty geometry). -/
def envelope : List Coord → Option Rect
  | [] => none
  | c :: rest => some (rest.foldl Rect.merge ⟨c, c⟩)

/-- `geometry.bounding_rect()` from the `geo` crate. -/
def Geometry.bounding_rect (g : Geometry) : Option Rect :=
  envelope g.coords

/-- `geometry.contains(&coord)` from the `geo` crate, for the modelled cases. -/
def Geometry.containsCoord : Geometry → Coord → Bool
  | .point c, c' => decide (c = c')
  | .multiPoint cs, c' => decide (c' ∈ cs)

/-- `serde_json::Map<String, serde_json::Value>`, modelled as an
association list (the store never inspects metadata). -/
abbrev Metadata := List (String × String)

/-- `pub struct Feature` of `rgis-layers`. -/
structure Feature where
  geometry : Geometry
  properties : List (String × String)
  bounding_rect : Rect
deriving DecidableEq, Repr

/-- `impl Contains<geo::Coordinate<f64>> for Feature`: the bounding-rect
fast-reject AND the exact geometric containment test. -/
def Feature.containsCoord (f : Feature) (c : Coord) : Bool :=
  f.bounding_rect.containsCoord c && f.geometry.containsCoord c

/-- `pub enum LayerCreateError`; `proj` carries the external transform
error message (`proj::TransformError` / `geo_proj_js::Error`). -/
inductive LayerCreateError where
  | boundingBox
  | proj (msg : String)
deriving DecidableEq, Repr

/-- `Feature::from_geometry`: `bounding_rect().ok_or(BoundingBox)?`. -/
def Feature.from_geometry (g : Geometry) : Except LayerCreateError Feature :=
  match g.bounding_rect with
  | none => .error .boundingBox
  | some bounding_rect => .ok ⟨g, [], bounding_rect⟩

/-- `colorous::Color` (an `(r, g, b)` byte triple). -/
structure ColorousColor where
  r : Nat
  g : Nat
  b : Nat
deriving DecidableEq, Repr

/-- `bevy::render::color::Color` produced by `Color::rgb_u8`; the byte-to-float
channel conversion is injective, so the color is modelled by its byte triple. -/
structure Color where
  red : Nat
  green : Nat
  blue : Nat
deriving DecidableEq, Repr

/-- `fn colorous_color_to_bevy_color`. -/
def colorous_color_to_bevy_color (colorous_color : ColorousColor) : Color :=
  ⟨colorous_color.r, colorous_color.g, colorous_color.b⟩

/-- `const COLORS: [colorous::Color; 10] = colorous::CATEGORY10;`
(the d3 category10 palette shipped by the `colorous` crate). -/
def COLORS : List ColorousColor :=
  [⟨31, 119, 180⟩, ⟨255, 127, 14⟩, ⟨44, 160, 44⟩, ⟨214, 39, 40⟩,
   ⟨148, 103, 189⟩, ⟨140, 86, 75⟩, ⟨227, 119, 194⟩, ⟨127, 127, 127⟩,
   ⟨188, 189, 34⟩, ⟨23, 190, 207⟩]

/-- `2 ^ 64`: the modulus of `usize` arithmetic on a 64-bit target. -/
def USIZE_SIZE : Nat := 2 ^ 64

/-- `fn next_color_index() -> usize`: reads the process-wide
`static COUNTER: AtomicUsize`, returns the old value modulo `COLORS.len()`,
and stores the incremented value (`fetch_add` wraps modulo `2 ^ 64`).
The global counter is threaded as explicit state. -/
def next_color_index (counter : Nat) : Nat × Nat :=
  (counter % COLORS.length, (counter + 1) % USIZE_SIZE)

/-- `fn next_colorous_color() -> colorous::Color`: `COLORS[next_color_index()]`.
The index is always `< COLORS.length`, so the `getD` default is never used. -/
def next_colorous_color (counter : Nat) : ColorousColor × Nat :=
  let (i, counter') := next_color_index counter
  (COLORS.getD i ⟨0, 0, 0⟩, counter')

/-- Per-coordinate CRS transformation loop: models
`projected_geometry.transform_crs_to_crs(&source_crs, &target_crs)` applying
the external black-box transform `f` to each coordinate, failing fast. -/
def mapCoords (f : Coord → Except String Coord) : List Coord → Except String (List Coord)
  | [] => .ok []
  | c :: rest => do
    let c' ← f c
    let rest' ← mapCoords f rest
    pure (c' :: rest')

/-- CRS transformation of a whole geometry (external `proj` /
`geo_proj_js`, applied coordinate-wise). -/
def Geometry.transform_crs_to_crs (f : Coord → Except String Coord) :
    Geometry → Except String Geometry
  | .point c => (f c).map .point
  | .multiPoint cs => (mapCoords f cs).map .multiPoint

/-- `pub struct UnassignedLayer`. -/
structure UnassignedLayer where
  projected_feature : Feature
  unprojected_feature : Feature
  color : Color
  metadata : Metadata
  name : String
  visible : Bool
  crs : String
deriving DecidableEq, Repr

/-- `UnassignedLayer::from_geometry`: clone, reproject (black-box transform
`f`), build both features (either `?` may fail with `BoundingBox`), then draw
the next palette color from the process-wide counter. The counter state is
threaded explicitly and is only touched once both features succeed, mirroring
the evaluation order of the source (the `?` operators run before
`next_colorous_color()`). -/
def UnassignedLayer.from_geometry (f : Coord → Except String Coord)
    (geometry : Geometry) (name : String) (metadata : Option Metadata)
    (source_crs target_crs : String) (counter : Nat) :
    Except LayerCreateError UnassignedLayer × Nat :=
  match geometry.transform_crs_to_crs f with
  | .error e => (.error (.proj e), counter)
  | .ok projected_geometry =>
    match Feature.from_geometry geometry with
    | .error e => (.error e, counter)
    | .ok unprojected_feature =>
      match Feature.from_geometry projected_geometry with
      | .error e => (.error e, counter)
      | .ok projected_feature =>
        let (cc, counter') := next_colorous_color counter
        (.ok { projected_feature
               unprojected_feature
               color := colorous_color_to_bevy_color cc
               metadata := metadata.getD []
               name
               visible := true
               crs := source_crs }, counter')

/-- Modelled from the spec: `rgis_layer_id::LayerId` (crate not under
`src/`) — an opaque identifier, unique for the lifetime of the store,
stable once assigned, never reused after deletion. -/
abbrev LayerId := Nat

/-- Modelled from the spec: `rgis_layer_id::LayerId::new()` (crate not under
`src/`) returns a fresh identifier never produced before; the id source is
modelled as an explicit counter state. -/
def LayerId.fresh (s : Nat) : LayerId × Nat := (s, s + 1)

/-- `pub struct Layer`. -/
structure Layer where
  unprojected_feature : Feature
  projected_feature : Feature
  color : Color
  id : LayerId
  name : String
  visible : Bool
  crs : String
deriving DecidableEq, Repr

/-- `pub struct Layers`: the ordered layer sequence (index 0 = bottom) and
the currently selected layer id. -/
structure Layers where
  data : List Layer
  selected_layer_id : Option LayerId
deriving DecidableEq, Repr

/-- `Layers::new()`. -/
def Layers.new : Layers := ⟨[], none⟩

/-- `Layers::count`. -/
def Layers.count (l : Layers) : Nat := l.data.length

/-- `Layers::iter_bottom_to_top`. -/
def Layers.iter_bottom_to_top (l : Layers) : List Layer := l.data

/-- `Layers::iter_top_to_bottom`: `self.data.iter().rev()`. -/
def Layers.iter_top_to_bottom (l : Layers) : List Layer := l.data.reverse

/-- `Layers::containing_coord`: top-to-bottom traversal filtered by
`layer.projected_feature.contains(&coord)`. -/
def Layers.containing_coord (l : Layers) (coord : Coord) : List Layer :=
  (l.iter_top_to_bottom).filter (fun layer => layer.projected_feature.containsCoord coord)

/-- `Layers::set_selected_layer_from_mouse_press`: first (topmost) match,
store it, return whether the selection changed. -/
def Layers.set_selected_layer_from_mouse_press (l : Layers) (coord : Coord) :
    Layers × Bool :=
  let selected_layer_id := ((l.containing_coord coord).head?).map (·.id)
  let prev_selected_layer_id := l.selected_layer_id
  ({ l with selected_layer_id := selected_layer_id },
   decide (prev_selected_layer_id ≠ selected_layer_id))

/-- `Layers::get_index`: `self.data.iter().position(|entry| entry.id == layer_id)`. -/
def Layers.get_index (l : Layers) (layer_id : LayerId) : Option Nat :=
  l.data.findIdx? (fun entry => entry.id == layer_id)

/-- `Layers::get`. -/
def Layers.get (l : Layers) (layer_id : LayerId) : Option Layer := do
  let index ← l.get_index layer_id
  l.data.get? index

/-- `Layers::get_with_z_index`. -/
def Layers.get_with_z_index (l : Layers) (layer_id : LayerId) :
    Option (Layer × Nat) := do
  let index ← l.get_index layer_id
  (l.data.get? index).map (fun layer => (layer, index))

/-- `Layers::remove`: drop the first layer whose id matches; silently does
nothing when absent. The selection field is not touched. -/
def Layers.remove (l : Layers) (layer_id : LayerId) : Layers :=
  match l.get_index layer_id with
  | some index => { l with data := l.data.eraseIdx index }
  | none => l

/-- `Layers::selected_layer`. -/
def Layers.selected_layer (l : Layers) : Option Layer :=
  l.selected_layer_id.bind (fun layer_id => l.get layer_id)

/-- The `Layer` record built inside `Layers::add` from an `UnassignedLayer`
and the freshly assigned id. -/
def mkLayer (unassigned_layer : UnassignedLayer) (layer_id : LayerId) : Layer :=
  { unprojected_feature := unassigned_layer.unprojected_feature
    projected_feature := unassigned_layer.projected_feature
    color := unassigned_layer.color
    name := unassigned_layer.name
    visible := unassigned_layer.visible
    id := layer_id
    crs := unassigned_layer.crs }

/-- `Layers::add`: assign a fresh id (see `LayerId.fresh`), build the layer,
`self.data.push(layer)` (append at the top), return the id. -/
def Layers.add (l : Layers) (unassigned_layer : UnassignedLayer) (s : Nat) :
    LayerId × Layers × Nat :=
  let (layer_id, s') := LayerId.fresh s
  (layer_id, { l with data := l.data ++ [mkLayer unassigned_layer layer_id] }, s')

/-- Iterated `Layers::add` over a list of candidates, threading the id state;
returns the ids in order of addition. -/
def Layers.add_all (l : Layers) : List UnassignedLayer → Nat → List LayerId × Layers × Nat
  | [], s => ([], l, s)
  | u :: rest, s =>
    let (layer_id, l', s') := l.add u s
    let (ids, l'', s'') := l'.add_all rest s'
    (layer_id :: ids, l'', s'')

/-- Modelled from the spec: `rgis_events::MoveDirection` (crate not under
`src/`) — `direction ∈ {Up, Down}`. -/
inductive MoveDirection where
  | up
  | down
deriving DecidableEq, Repr

/-- The neighbour-index computation of `handle_move_layer_events`:
`Up => old_z_index + 1, Down => old_z_index - 1` on `usize`. The source
performs the subtraction with no prior bounds check; at `old_z_index = 0`
it underflows (aborts in debug builds, wraps to `2 ^ 64 - 1` in release
builds, the semantics modelled here). -/
def new_z_index_of (old_z_index : Nat) : MoveDirection → Nat
  | .up => (old_z_index + 1) % USIZE_SIZE
  | .down => (old_z_index + (USIZE_SIZE - 1)) % USIZE_SIZE

/-- Loop body of `handle_toggle_layer_visibility_events` for one
`ToggleLayerVisibilityEvent`: flip the flag (`get_mut` modelled as index
lookup plus `List.set`), then send on the became-visible stream or the
became-hidden stream. Result: `(store, visible-events, hidden-events)`;
an unknown id logs a warning and emits nothing. -/
def Layers.toggle_layer_visibility (l : Layers) (layer_id : LayerId) :
    Layers × List LayerId × List LayerId :=
  match l.get_with_z_index layer_id with
  | none => (l, [], [])
  | some (layer, index) =>
    let layer' := { layer with visible := !layer.visible }
    let l' := { l with data := l.data.set index layer' }
    if layer'.visible then (l', [layer_id], []) else (l', [], [layer_id])

/-- Loop body of `handle_update_color_events` for one `UpdateLayerColorEvent`:
set the color and send a `LayerColorUpdatedEvent`; an unknown id logs a
warning and emits nothing. -/
def Layers.update_color (l : Layers) (layer_id : LayerId) (color : Color) :
    Layers × List LayerId :=
  match l.get_with_z_index layer_id with
  | none => (l, [])
  | some (layer, index) =>
    ({ l with data := l.data.set index { layer with color := color } }, [layer_id])

/-- Loop body of `handle_delete_layer_events` for one `DeleteLayerEvent`:
`layers.remove(event.0)` followed unconditionally by sending
`LayerDeletedEvent(event.0)` — the event is emitted even when the id was
not present. -/
def Layers.delete_layer (l : Layers) (layer_id : LayerId) :
    Layers × List LayerId :=
  (l.remove layer_id, [layer_id])

/-- Loop body of `handle_move_layer_events` for one `MoveLayerEvent`:
look up the layer and its z-index, compute the neighbour index (see
`new_z_index_of`), look up the neighbour (`continue` when absent),
`Vec::swap` the two positions, and send a `LayerZIndexUpdatedEvent` for the
moved id followed by one for the neighbour's id. -/
def Layers.move_layer (l : Layers) (layer_id : LayerId)
    (direction : MoveDirection) : Layers × List LayerId :=
  match l.get_with_z_index layer_id with
  | none => (l, [])
  | some (layer, old_z_index) =>
    let new_z_index := new_z_index_of old_z_index direction
    match l.data.get? new_z_index with
    | none => (l, [])
    | some other_layer =>
      ({ l with data := (l.data.set old_z_index other_layer).set new_z_index layer },
       [layer_id, other_layer.id])

/-- `handle_toggle_layer_visibility_events` over a whole tick's event list,
concatenating the two outbound event streams. -/
def Layers.toggle_layer_visibility_events (l : Layers) (events : List LayerId) :
    Layers × List LayerId × List LayerId :=
  events.foldl
    (fun acc layer_id =>
      let r := acc.1.toggle_layer_visibility layer_id
      (r.1, acc.2.1 ++ r.2.1, acc.2.2 ++ r.2.2))
    (l, [], [])

/-- A rectangle encloses a coordinate (inclusive bounds). -/
def Rect.enclosesCoord (r : Rect) (c : Coord) : Prop :=
  r.min.x ≤ c.x ∧ c.x ≤ r.max.x ∧ r.min.y ≤ c.y ∧ c.y ≤ r.max.y

/-- `inner` lies within `outer`. -/
def Rect.within (inner outer : Rect) : Prop :=
  outer.min.x ≤ inner.min.x ∧ inner.max.x ≤ outer.max.x ∧
  outer.min.y ≤ inner.min.y ∧ inner.max.y ≤ outer.max.y

/-- `r` is the minimal axis-aligned rectangle enclosing the geometry `g`:
it encloses every coordinate of `g`, and lies within every rectangle that
does. -/
def IsMinimalEnclosing (r : Rect) (g : Geometry) : Prop :=
  (∀ c ∈ g.coords, r.enclosesCoord c) ∧
  (∀ r' : Rect, (∀ c ∈ g.coords, r'.enclosesCoord c) → r.within r')

/-- A feature is well formed when its stored `bounding_rect` is the minimal
enclosing rectangle of its geometry. -/
def Feature.WellFormed (f : Feature) : Prop :=
  IsMinimalEnclosing f.bounding_rect f.geometry

/-- A layer is well formed when both of its features are. -/
def Layer.WellFormed (layer : Layer) : Prop :=
  layer.unprojected_feature.WellFormed ∧ layer.projected_feature.WellFormed

/-- A candidate that was actually produced by `UnassignedLayer::from_geometry`. -/
def FromGeometryCandidate (u : UnassignedLayer) : Prop :=
  ∃ f geometry name metadata source_crs target_crs counter,
    (UnassignedLayer.from_geometry f geometry name metadata source_crs
      target_crs counter).1 = .ok u

/-- Stores reachable through the public operations of the crate: the empty
store, `add` of a candidate built by `UnassignedLayer::from_geometry`, and
the event-handler bodies. -/
inductive Reachable : Layers → Prop where
  | new : Reachable Layers.new
  | add {l : Layers} {u : UnassignedLayer} {s : Nat} :
      Reachable l → FromGeometryCandidate u → Reachable (l.add u s).2.1
  | remove {l : Layers} {layer_id : LayerId} :
      Reachable l → Reachable (l.remove layer_id)
  | toggle {l : Layers} {layer_id : LayerId} :
      Reachable l → Reachable (l.toggle_layer_visibility layer_id).1
  | color {l : Layers} {layer_id : LayerId} {c : Color} :
      Reachable l → Reachable (l.update_color layer_id c).1
  | delete {l : Layers} {layer_id : LayerId} :
      Reachable l → Reachable (l.delete_layer layer_id).1
  | move {l : Layers} {layer_id : LayerId} {d : MoveDirection} :
      Reachable l → Reachable (l.move_layer layer_id d).1
  | click {l : Layers} {coord : Coord} :
      Reachable l → Reachable (l.set_selected_layer_from_mouse_press coord).1

/-! ### Concrete instances

Small concrete layers and stores used by witnesses and counterexamples. -/

/-- A feature whose geometry is the single point `(0, 0)`. -/
def f0 : Feature := ⟨.point ⟨0, 0⟩, [], ⟨⟨0, 0⟩, ⟨0, 0⟩⟩⟩

/-- The candidate produced by `UnassignedLayer::from_geometry` for the point
`(0, 0)` under the identity transform at global color counter `0`. -/
def u0 : UnassignedLayer := ⟨f0, f0, ⟨31, 119, 180⟩, [], "a", true, "s"⟩

/-- The layer obtained by adding `u0` to a fresh store at id state `0`. -/
def la0 : Layer := ⟨f0, f0, ⟨31, 119, 180⟩, 0, "a", true, "s"⟩

/-- The candidate produced by `UnassignedLayer::from_geometry` for the point
`(0, 0)` under the identity transform at global color counter `1`. -/
def u1 : UnassignedLayer := ⟨f0, f0, ⟨255, 127, 14⟩, [], "b", true, "s"⟩

/-- A second layer at the point `(0, 0)`, id `1`, palette color `1`. -/
def la1 : Layer := ⟨f0, f0, ⟨255, 127, 14⟩, 1, "b", true, "s"⟩

/-- `la0` with its `visible` flag cleared. -/
def laHidden : Layer := ⟨f0, f0, ⟨31, 119, 180⟩, 0, "a", false, "s"⟩

/-! ### Helper lemmas: rectangles and envelopes -/

theorem Rect.within_refl (r : Rect) : r.within r := by
  simp [Rect.within]

theorem Rect.within_trans {r₁ r₂ r₃ : Rect} (h₁ : r₁.within r₂)
    (h₂ : r₂.within r₃) : r₁.within r₃ := by
  simp only [Rect.within] at *
  omega

theorem Rect.enclosesCoord_of_within {inner outer : Rect} {c : Coord}
    (hw : inner.within outer) (hc : inner.enclosesCoord c) :
    outer.enclosesCoord c := by
  simp only [Rect.within, Rect.enclosesCoord] at *
  omega

theorem Rect.within_merge (r : Rect) (c : Coord) : r.within (r.merge c) := by
  simp only [Rect.within, Rect.merge]
  omega

theorem Rect.merge_encloses (r : Rect) (c : Coord) :
    (r.merge c).enclosesCoord c := by
  simp only [Rect.enclosesCoord, Rect.merge]
  omega

theorem Rect.merge_within {r r' : Rect} {c : Coord} (hw : r.within r')
    (hc : r'.enclosesCoord c) : (r.merge c).within r' := by
  simp only [Rect.within, Rect.merge, Rect.enclosesCoord] at *
  omega

theorem foldl_merge_grows (cs : List Coord) (r₀ : Rect) :
    r₀.within (cs.foldl Rect.merge r₀) := by
  induction cs generalizing r₀ with
  | nil => exact Rect.within_refl r₀
  | cons c rest ih =>
    exact Rect.within_trans (Rect.within_merge r₀ c) (ih (r₀.merge c))

theorem foldl_merge_encloses (cs : List Coord) (r₀ : Rect) :
    ∀ c ∈ cs, (cs.foldl Rect.merge r₀).enclosesCoord c := by
  induction cs generalizing r₀ with
  | nil => intro c hc; cases hc
  | cons c rest ih =>
    intro c' hc'
    rcases List.mem_cons.mp hc' with h | h
    · subst h
      exact Rect.enclosesCoord_of_within (foldl_merge_grows rest (r₀.merge c'))
        (Rect.merge_encloses r₀ c')
    · exact ih (r₀.merge c) c' h

theorem foldl_merge_minimal (cs : List Coord) (r₀ r' : Rect)
    (h₀ : r₀.within r') (hall : ∀ c ∈ cs, r'.enclosesCoord c) :
    (cs.foldl Rect.merge r₀).within r' := by
  induction cs generalizing r₀ with
  | nil => exact h₀
  | cons c rest ih =>
    exact ih (r₀.merge c)
      (Rect.merge_within h₀ (hall c (List.mem_cons_self c rest)))
      (fun c' hc' => hall c' (List.mem_cons_of_mem c hc'))

theorem envelope_minimal {cs : List Coord} {r : Rect}
    (h : envelope cs = some r) :
    (∀ c ∈ cs, r.enclosesCoord c) ∧
    (∀ r' : Rect, (∀ c ∈ cs, r'.enclosesCoord c) → r.within r') := by
  match cs, h with
  | c :: rest, h =>
    simp only [envelope, Option.some.injEq] at h
    subst h
    refine ⟨?_, ?_⟩
    · intro c' hc'
      rcases List.mem_cons.mp hc' with h | h
      · subst h
        exact Rect.enclosesCoord_of_within (foldl_merge_grows rest ⟨c', c'⟩)
          (by simp [Rect.enclosesCoord])
      · exact foldl_merge_encloses rest ⟨c, c⟩ c' h
    · intro r' hall
      refine foldl_merge_minimal rest ⟨c, c⟩ r' ?_
        (fun c' hc' => hall c' (List.mem_cons_of_mem c hc'))
      have := hall c (List.mem_cons_self c rest)
      simp only [Rect.enclosesCoord, Rect.within] at *
      omega

theorem envelope_eq_none_iff (cs : List Coord) : envelope cs = none ↔ cs = [] := by
  cases cs <;> simp [envelope]

theorem feature_from_geometry_ok {g : Geometry} {ft : Feature}
    (h : Feature.from_geometry g = .ok ft) :
    ft.WellFormed ∧ ft.geometry = g ∧ ft.properties = [] := by
  unfold Feature.from_geometry at h
  cases hbr : g.bounding_rect with
  | none => rw [hbr] at h; cases h
  | some r =>
    rw [hbr] at h
    cases h
    have : (∀ c ∈ g.coords, r.enclosesCoord c) ∧
        (∀ r' : Rect, (∀ c ∈ g.coords, r'.enclosesCoord c) → r.within r') :=
      envelope_minimal hbr
    exact ⟨⟨this.1, this.2⟩, rfl, rfl⟩

theorem feature_from_geometry_error {g : Geometry} {e : LayerCreateError}
    (h : Feature.from_geometry g = .error e) :
    e = .boundingBox ∧ g.bounding_rect = none := by
  unfold Feature.from_geometry at h
  cases hbr : g.bounding_rect with
  | none => rw [hbr] at h; cases h; exact ⟨rfl, rfl⟩
  | some r => rw [hbr] at h; cases h

/-! ### Helper lemmas: lists, lookup and update -/

theorem list_set_get?_self {α : Type} {xs : List α} {i : Nat} {a : α}
    (h : xs.get? i = some a) : xs.set i a = xs := by
  induction xs generalizing i with
  | nil => cases h
  | cons x rest ih =>
    cases i with
    | zero => cases h; rfl
    | succ n =>
      simp only [List.get?] at h
      simp [List.set, ih h]

theorem findIdx?_set_same {α : Type} {p : α → Bool} {xs : List α} {i : Nat}
    {y : α} (h : xs.findIdx? p = some i) (hy : p y = true) :
    (xs.set i y).findIdx? p = some i := by
  rw [List.findIdx?_eq_some_iff_getElem] at h ⊢
  obtain ⟨hlt, _, hmin⟩ := h
  have hlt' : i < (xs.set i y).length := by simpa using hlt
  refine ⟨hlt', ?_, ?_⟩
  · simpa [List.getElem_set_self hlt'] using hy
  · intro j hji
    have hne : i ≠ j := by omega
    rw [List.getElem_set_ne hne]
    exact hmin j hji

theorem get_index_eq_some {l : Layers} {layer_id : LayerId} {i : Nat} :
    l.get_index layer_id = some i ↔
      ∃ h : i < l.data.length,
        (l.data.get ⟨i, h⟩).id = layer_id ∧
        ∀ j (hj : j < i), (l.data.get ⟨j, by omega⟩).id ≠ layer_id := by
  constructor
  · intro h
    rw [Layers.get_index, List.findIdx?_eq_some_iff_getElem] at h
    obtain ⟨hlt, hp, hmin⟩ := h
    refine ⟨hlt, by simpa using hp, ?_⟩
    intro j hj
    have := hmin j hj
    simpa using this
  · rintro ⟨hlt, hp, hmin⟩
    rw [Layers.get_index, List.findIdx?_eq_some_iff_getElem]
    refine ⟨hlt, by simpa using hp, ?_⟩
    intro j hji
    have := hmin j hji
    simpa using this

theorem get_index_lt {l : Layers} {layer_id : LayerId} {i : Nat}
    (h : l.get_index layer_id = some i) : i < l.data.length :=
  (get_index_eq_some.mp h).1

theorem get_with_z_index_eq_some {l : Layers} {layer_id : LayerId}
    {layer : Layer} {i : Nat} :
    l.get_with_z_index layer_id = some (layer, i) ↔
      l.get_index layer_id = some i ∧ l.data.get? i = some layer := by
  unfold Layers.get_with_z_index
  cases hidx : l.get_index layer_id with
  | none => simp [Option.bind]
  | some j =>
    cases hq : l.data.get? j with
    | none =>
      have := get_index_lt hidx
      rw [List.get?_eq_getElem?, List.getElem?_eq_none_iff] at hq
      omega
    | some la =>
      simp only [Option.bind_eq_bind, Option.some_bind, hq, Option.map_some',
        Option.some.injEq, Prod.mk.injEq]
      constructor
      · rintro ⟨h₁, h₂⟩; subst h₁; subst h₂; exact ⟨rfl, hq⟩
      · rintro ⟨h₁, h₂⟩
        cases h₁
        rw [hq] at h₂
        cases h₂
        exact ⟨rfl, rfl⟩

theorem get_with_z_index_layer_id {l : Layers} {layer_id : LayerId}
    {layer : Layer} {i : Nat}
    (h : l.get_with_z_index layer_id = some (layer, i)) :
    layer.id = layer_id := by
  obtain ⟨hidx, hq⟩ := get_with_z_index_eq_some.mp h
  obtain ⟨hlt, hp, -⟩ := get_index_eq_some.mp hidx
  rw [List.get?_eq_getElem?, List.getElem?_eq_some_iff] at hq
  obtain ⟨h', hq⟩ := hq
  subst hq
  exact hp

/-! ### Helper lemmas: the CRS transform -/

theorem mapCoords_length {f : Coord → Except String Coord}
    {cs ds : List Coord} (h : mapCoords f cs = .ok ds) :
    ds.length = cs.length := by
  induction cs generalizing ds with
  | nil => cases h; rfl
  | cons c rest ih =>
    simp only [mapCoords] at h
    cases hc : f c with
    | error e => rw [hc] at h; cases h
    | ok c' =>
      rw [hc] at h
      cases hr : mapCoords f rest with
      | error e => rw [hr] at h; cases h
      | ok rest' =>
        rw [hr] at h
        cases h
        simp [ih hr]

theorem transform_coords_length {f : Coord → Except String Coord}
    {g g' : Geometry} (h : g.transform_crs_to_crs f = .ok g') :
    g'.coords.length = g.coords.length := by
  cases g with
  | point c =>
    simp only [Geometry.transform_crs_to_crs] at h
    cases hc : f c with
    | error e => rw [hc] at h; cases h
    | ok c' => rw [hc] at h; cases h; rfl
  | multiPoint cs =>
    simp only [Geometry.transform_crs_to_crs] at h
    cases hm : mapCoords f cs with
    | error e => rw [hm] at h; cases h
    | ok ds =>
      rw [hm] at h
      cases h
      simpa [Geometry.coords] using mapCoords_length hm

theorem transform_of_coords_nil {f : Coord → Except String Coord}
    {g : Geometry} (h : g.coords = []) :
    g.transform_crs_to_crs f = .ok g := by
  cases g with
  | point c => simp [Geometry.coords] at h
  | multiPoint cs =>
    simp only [Geometry.coords] at h
    subst h
    rfl

/-! ### Helper lemmas: `UnassignedLayer::from_geometry` -/

theorem from_geometry_ok {f : Coord → Except String Coord} {g : Geometry}
    {name : String} {metadata : Option Metadata} {s t : String}
    {counter : Nat} {u : UnassignedLayer}
    (h : (UnassignedLayer.from_geometry f g name metadata s t counter).1 = .ok u) :
    ∃ g', g.transform_crs_to_crs f = .ok g' ∧
      Feature.from_geometry g = .ok u.unprojected_feature ∧
      Feature.from_geometry g' = .ok u.projected_feature ∧
      u.color = colorous_color_to_bevy_color
        (COLORS.getD (counter % COLORS.length) ⟨0, 0, 0⟩) ∧
      u.visible = true ∧
      (UnassignedLayer.from_geometry f g name metadata s t counter).2
        = (counter + 1) % USIZE_SIZE := by
  unfold UnassignedLayer.from_geometry at h
  cases htr : g.transform_crs_to_crs f with
  | error e => simp [htr] at h
  | ok g' =>
    simp only [htr] at h
    cases hu : Feature.from_geometry g with
    | error e => simp [hu] at h
    | ok uf =>
      simp only [hu] at h
      cases hp : Feature.from_geometry g' with
      | error e => simp [hp] at h
      | ok pf =>
        simp only [hp, next_colorous_color, next_color_index,
          Except.ok.injEq] at h
        subst h
        refine ⟨g', rfl, rfl, hp, rfl, rfl, ?_⟩
        simp [UnassignedLayer.from_geometry, htr, hu, hp,
          next_colorous_color, next_color_index]

theorem from_geometry_boundingBox_iff {f : Coord → Except String Coord}
    {g : Geometry} {name : String} {metadata : Option Metadata}
    {s t : String} {counter : Nat} :
    (UnassignedLayer.from_geometry f g name metadata s t counter).1
        = .error .boundingBox ↔ g.bounding_rect = none := by
  constructor
  · intro h
    unfold UnassignedLayer.from_geometry at h
    cases htr : g.transform_crs_to_crs f with
    | error e => simp [htr] at h
    | ok g' =>
      simp only [htr] at h
      cases hu : Feature.from_geometry g with
      | error e =>
        exact (feature_from_geometry_error hu).2
      | ok uf =>
        simp only [hu] at h
        cases hp : Feature.from_geometry g' with
        | error e =>
          have hbr' := (feature_from_geometry_error hp).2
          rw [Geometry.bounding_rect, envelope_eq_none_iff] at hbr' ⊢
          have hl := transform_coords_length htr
          rw [hbr'] at hl
          exact List.length_eq_zero.mp hl.symm
        | ok pf => simp [hp, next_colorous_color, next_color_index] at h
  · intro h
    have hcoords : g.coords = [] := by
      rw [Geometry.bounding_rect, envelope_eq_none_iff] at h
      exact h
    have hfe : Feature.from_geometry g = .error .boundingBox := by
      unfold Feature.from_geometry
      rw [h]
    have htr : g.transform_crs_to_crs f = .ok g :=
      transform_of_coords_nil hcoords
    simp [UnassignedLayer.from_geometry, htr, hfe]

/-! ### Helper lemmas: the well-formedness invariant of reachable stores -/

theorem mem_of_mem_remove {l : Layers} {layer_id : LayerId} {layer : Layer}
    (h : layer ∈ (l.remove layer_id).data) : layer ∈ l.data := by
  unfold Layers.remove at h
  cases hidx : l.get_index layer_id with
  | none => simpa only [hidx] using h
  | some i =>
    simp only [hidx] at h
    exact List.mem_of_mem_eraseIdx h

theorem candidate_wf {u : UnassignedLayer} (h : FromGeometryCandidate u) :
    u.unprojected_feature.WellFormed ∧ u.projected_feature.WellFormed := by
  obtain ⟨f, g, name, md, s, t, c, hok⟩ := h
  obtain ⟨g', htr, hu, hp, -, -, -⟩ := from_geometry_ok hok
  exact ⟨(feature_from_geometry_ok hu).1, (feature_from_geometry_ok hp).1⟩

theorem wf_visible_update {layer : Layer} {b : Bool} (h : layer.WellFormed) :
    ({ layer with visible := b } : Layer).WellFormed := h

theorem wf_color_update {layer : Layer} {c : Color} (h : layer.WellFormed) :
    ({ layer with color := c } : Layer).WellFormed := h

theorem reachable_layers_wf {l : Layers} (h : Reachable l) :
    ∀ layer ∈ l.data, layer.WellFormed := by
  induction h with
  | new => intro layer hm; cases hm
  | @add l₀ u s hr hc ih =>
    intro layer hm
    simp only [Layers.add, LayerId.fresh] at hm
    rcases List.mem_append.mp hm with hm | hm
    · exact ih layer hm
    · rcases List.mem_singleton.mp hm with rfl
      exact candidate_wf hc
  | @remove l₀ layer_id hr ih =>
    intro layer hm
    exact ih layer (mem_of_mem_remove hm)
  | @toggle l₀ layer_id hr ih =>
    intro layer hm
    unfold Layers.toggle_layer_visibility at hm
    cases hg : l₀.get_with_z_index layer_id with
    | none => exact ih layer (by simpa only [hg] using hm)
    | some p =>
      obtain ⟨la, idx⟩ := p
      simp only [hg] at hm
      have hla : la ∈ l₀.data :=
        List.get?_mem (get_with_z_index_eq_some.mp hg).2
      split at hm <;>
      · rcases List.mem_or_eq_of_mem_set hm with hm | rfl
        · exact ih layer hm
        · exact wf_visible_update (ih la hla)
  | @color l₀ layer_id c hr ih =>
    intro layer hm
    unfold Layers.update_color at hm
    cases hg : l₀.get_with_z_index layer_id with
    | none => exact ih layer (by simpa only [hg] using hm)
    | some p =>
      obtain ⟨la, idx⟩ := p
      simp only [hg] at hm
      have hla : la ∈ l₀.data :=
        List.get?_mem (get_with_z_index_eq_some.mp hg).2
      rcases List.mem_or_eq_of_mem_set hm with hm | rfl
      · exact ih layer hm
      · exact wf_color_update (ih la hla)
  | @delete l₀ layer_id hr ih =>
    intro layer hm
    exact ih layer (mem_of_mem_remove hm)
  | @move l₀ layer_id d hr ih =>
    intro layer hm
    unfold Layers.move_layer at hm
    cases hg : l₀.get_with_z_index layer_id with
    | none => exact ih layer (by simpa only [hg] using hm)
    | some p =>
      obtain ⟨la, oldZ⟩ := p
      simp only [hg] at hm
      have hla : la ∈ l₀.data :=
        List.get?_mem (get_with_z_index_eq_some.mp hg).2
      cases hq : l₀.data.get? (new_z_index_of oldZ d) with
      | none => exact ih layer (by simpa only [hq] using hm)
      | some other =>
        simp only [hq] at hm
        have hother : other ∈ l₀.data := List.get?_mem hq
        rcases List.mem_or_eq_of_mem_set hm with hm | rfl
        · rcases List.mem_or_eq_of_mem_set hm with hm | rfl
          · exact ih layer hm
          · exact ih _ hother
        · exact ih _ hla
  | @click l₀ coord hr ih =>
    intro layer hm
    exact ih layer hm

/-! ### Claim theorems -/

/-- Claim C4: for every layer store and point, a layer matches the point iff its
projected bounding rect contains the point AND its exact projected geometry
contains the point; matches are traversed top-to-bottom (reverse of storage
order); `select_at` (`set_selected_layer_from_mouse_press`) takes the first
(topmost) match if any, else none, sets `selected_layer_id` to it, and
returns `true` iff the new selection differs from the previous
`selected_layer_id`, so a repeated click at the same point returns `false`. -/
theorem c4_hit_test_and_selection (l : Layers) (coord : Coord) :
    (∀ layer, layer ∈ l.containing_coord coord ↔
        layer ∈ l.data ∧
        layer.projected_feature.bounding_rect.containsCoord coord = true ∧
        layer.projected_feature.geometry.containsCoord coord = true) ∧
    l.containing_coord coord =
      (l.data.filter fun layer => layer.projected_feature.containsCoord coord).reverse ∧
    (l.set_selected_layer_from_mouse_press coord).1.selected_layer_id =
      ((l.containing_coord coord).head?).map (fun layer => layer.id) ∧
    (l.set_selected_layer_from_mouse_press coord).1.data = l.data ∧
    ((l.set_selected_layer_from_mouse_press coord).2 = true ↔
      (l.set_selected_layer_from_mouse_press coord).1.selected_layer_id
        ≠ l.selected_layer_id) ∧
    ((l.set_selected_layer_from_mouse_press coord).1.set_selected_layer_from_mouse_press
        coord).2 = false := by
  refine ⟨?_, ?_, rfl, rfl, ?_, ?_⟩
  · intro layer
    simp only [Layers.containing_coord, Layers.iter_top_to_bottom,
      List.mem_filter, List.mem_reverse, Feature.containsCoord,
      Bool.and_eq_true]
  · simp [Layers.containing_coord, Layers.iter_top_to_bottom,
      List.filter_reverse]
  · simp only [Layers.set_selected_layer_from_mouse_press, decide_eq_true_eq]
    exact ne_comm
  · simp [Layers.set_selected_layer_from_mouse_press, Layers.containing_coord,
      Layers.iter_top_to_bottom]

/-- Claim C10: hit-testing and selection ignore the `visible` flag — a hidden
layer whose projected feature contains the point still appears in
`containing_coord` and, when topmost, becomes the selected layer with the
click reporting a change. -/
theorem c10_hit_test_ignores_visible (l : Layers) (coord : Coord)
    (layer : Layer) (hmem : layer ∈ l.data)
    (hcont : layer.projected_feature.containsCoord coord = true)
    (hvis : layer.visible = false) :
    layer ∈ l.containing_coord coord ∧
    ((l.containing_coord coord).head? = some layer →
      (l.set_selected_layer_from_mouse_press coord).1.selected_layer_id
          = some layer.id ∧
      (l.selected_layer_id ≠ some layer.id →
        (l.set_selected_layer_from_mouse_press coord).2 = true)) := by
  refine ⟨?_, ?_⟩
  · simp only [Layers.containing_coord, Layers.iter_top_to_bottom,
      List.mem_filter, List.mem_reverse]
    exact ⟨hmem, hcont⟩
  · intro hhead
    simp only [Layers.set_selected_layer_from_mouse_press, hhead,
      Option.map_some', decide_eq_true_eq]
    exact ⟨by simp, fun hne => hne⟩

/-- Claim C10 witness: a store holding a single hidden layer containing the
clicked point; the hidden layer is hit and becomes the selection. -/
theorem c10_witness :
    laHidden ∈ (Layers.mk [laHidden] none).containing_coord ⟨0, 0⟩ ∧
    ((Layers.mk [laHidden] none).set_selected_layer_from_mouse_press
        ⟨0, 0⟩).1.selected_layer_id = some 0 ∧
    ((Layers.mk [laHidden] none).set_selected_layer_from_mouse_press
        ⟨0, 0⟩).2 = true := by
  have h := c10_hit_test_ignores_visible ⟨[laHidden], none⟩ ⟨0, 0⟩ laHidden
    (by decide) (by decide) (by decide)
  have h2 := h.2 (by decide)
  exact ⟨h.1, h2.1, h2.2 (by decide)⟩

/-- Claim C1: evaluation of `handle_move_layer_events` at the boundary inputs.
`Up` on the topmost layer is indeed a no-op with no event. But for `Down`
on the bottommost layer (index 0) the source computes `old_z_index - 1` on
`usize` **before any bounds check**: the subtraction underflows, wrapping
to `2 ^ 64 - 1` (release builds; in debug builds the same overflow aborts
the program), and only the failing neighbour lookup at that wrapped index
makes the operation a no-op. The claim's "checks bounds before computing
the neighbor index" and "the index arithmetic never underflows" do not
hold of the code. -/
theorem c1_move_layer_boundary :
    (Layers.mk [la0] none).get_with_z_index 0 = some (la0, 0) ∧
    new_z_index_of 0 .down = USIZE_SIZE - 1 ∧
    (Layers.mk [la0] none).move_layer 0 .down = (⟨[la0], none⟩, []) ∧
    new_z_index_of 0 .up = 1 ∧
    (Layers.mk [la0] none).move_layer 0 .up = (⟨[la0], none⟩, []) := by
  refine ⟨by decide, by decide, by decide, by decide, by decide⟩

/-- Claim C2 counterexample: a reachable store whose only layer (id 0) is
selected; removing it empties the sequence but leaves
`selected_layer_id = some 0` — the selection is *not* cleared, and the
claimed store invariant (`selected_layer_id` names a present layer) fails
in the resulting reachable store. -/
theorem c2_counterexample :
    (((Layers.new.add u0 0).2.1.set_selected_layer_from_mouse_press
        ⟨0, 0⟩).1.remove 0).data = [] ∧
    (((Layers.new.add u0 0).2.1.set_selected_layer_from_mouse_press
        ⟨0, 0⟩).1.remove 0).selected_layer_id = some 0 ∧
    (((Layers.new.add u0 0).2.1.set_selected_layer_from_mouse_press
        ⟨0, 0⟩).1.remove 0).selected_layer_id ≠ none ∧
    (((Layers.new.add u0 0).2.1.set_selected_layer_from_mouse_press
        ⟨0, 0⟩).1.remove 0).get 0 = none ∧
    Reachable (((Layers.new.add u0 0).2.1.set_selected_layer_from_mouse_press
        ⟨0, 0⟩).1.remove 0) := by
  refine ⟨by decide, by decide, by decide, by decide, ?_⟩
  exact Reachable.remove (Reachable.click (Reachable.add Reachable.new
    ⟨fun c => .ok c, .point ⟨0, 0⟩, "a", none, "s", "t", 0, rfl⟩))

/-- Claim C2 amended: `remove(X)` deletes the first layer whose id is `X`
(shrinking the sequence by one) but leaves `selected_layer_id` untouched:
removing the selected layer keeps the now-stale selection instead of
clearing it. -/
theorem c2_remove_keeps_selection (l : Layers) (X : LayerId) (i : Nat)
    (hsel : l.selected_layer_id = some X) (hidx : l.get_index X = some i) :
    (l.remove X).data = l.data.eraseIdx i ∧
    (l.remove X).selected_layer_id = some X ∧
    (l.remove X).count + 1 = l.count := by
  have hlt := get_index_lt hidx
  unfold Layers.remove
  simp only [hidx]
  refine ⟨trivial, hsel, ?_⟩
  simp only [Layers.count, List.length_eraseIdx, if_pos hlt]
  omega

/-- Claim C2 witness: the amended statement at the concrete reachable store of
the counterexample. -/
theorem c2_witness :
    ((((Layers.new.add u0 0).2.1.set_selected_layer_from_mouse_press
        ⟨0, 0⟩).1.remove 0).data = ([la0] : List Layer).eraseIdx 0) ∧
    (((Layers.new.add u0 0).2.1.set_selected_layer_from_mouse_press
        ⟨0, 0⟩).1.remove 0).selected_layer_id = some 0 ∧
    (((Layers.new.add u0 0).2.1.set_selected_layer_from_mouse_press
        ⟨0, 0⟩).1.remove 0).count + 1 =
      ((Layers.new.add u0 0).2.1.set_selected_layer_from_mouse_press
        ⟨0, 0⟩).1.count :=
  c2_remove_keeps_selection
    ((Layers.new.add u0 0).2.1.set_selected_layer_from_mouse_press ⟨0, 0⟩).1
    0 0 (by decide) (by decide)

/-- Claim C7 counterexample: for an id absent from the store, the delete handler
(`handle_delete_layer_events`) still emits a `LayerDeletedEvent` carrying
that id — it does not emit "no layer-change event" as claimed (and no
warning is logged on this path). -/
theorem c7_counterexample :
    Layers.new.get_index 0 = none ∧
    (Layers.new.delete_layer 0).2 = [0] ∧
    ([0] : List LayerId) ≠ [] := by
  refine ⟨by decide, by decide, by decide⟩

/-- Claim C7 amended: mutating operations on an id absent from the store never
fail and leave the store unchanged: `remove` is a silent no-op (count
unchanged), and the move/toggle/recolor handler bodies warn and emit no
event; the delete handler, however, still emits a `LayerDeletedEvent`
carrying the unknown id. -/
theorem c7_unknown_id_ops (l : Layers) (layer_id : LayerId)
    (d : MoveDirection) (c : Color)
    (habs : l.get_index layer_id = none) :
    l.remove layer_id = l ∧
    (l.remove layer_id).count = l.count ∧
    l.get layer_id = none ∧
    l.move_layer layer_id d = (l, []) ∧
    l.toggle_layer_visibility layer_id = (l, [], []) ∧
    l.update_color layer_id c = (l, []) ∧
    l.delete_layer layer_id = (l, [layer_id]) := by
  have hz : l.get_with_z_index layer_id = none := by
    unfold Layers.get_with_z_index
    simp [habs]
  have hrem : l.remove layer_id = l := by
    unfold Layers.remove
    simp [habs]
  refine ⟨hrem, by rw [hrem], ?_, ?_, ?_, ?_, ?_⟩
  · unfold Layers.get
    simp [habs]
  · unfold Layers.move_layer
    simp [hz]
  · unfold Layers.toggle_layer_visibility
    simp [hz]
  · unfold Layers.update_color
    simp [hz]
  · unfold Layers.delete_layer
    rw [hrem]

/-- Claim C7 witness: the amended statement at the empty store and id 0. -/
theorem c7_witness :
    Layers.new.remove 0 = Layers.new ∧
    (Layers.new.remove 0).count = Layers.new.count ∧
    Layers.new.get 0 = none ∧
    Layers.new.move_layer 0 .down = (Layers.new, []) ∧
    Layers.new.toggle_layer_visibility 0 = (Layers.new, [], []) ∧
    Layers.new.update_color 0 ⟨9, 9, 9⟩ = (Layers.new, []) ∧
    Layers.new.delete_layer 0 = (Layers.new, [0]) :=
  c7_unknown_id_ops Layers.new 0 .down ⟨9, 9, 9⟩ (by decide)

/-- Claim C3 counterexample: the palette counter is the process-wide
`static COUNTER: AtomicUsize`, shared by every store, and it is incremented
by `UnassignedLayer::from_geometry` (candidate creation), not by
`Layers::add`. Creating one candidate for some other store first (counter
`0 → 1`) makes the *first* layer added to a fresh store carry
`palette[1] = (255, 127, 14)`, not `palette[(1-1) mod 10] = palette[0]
= (31, 119, 180)` as the claim requires. -/
theorem c3_counterexample :
    (UnassignedLayer.from_geometry (fun c => .ok c) (.point ⟨0, 0⟩) "b" none
        "s" "t"
        (UnassignedLayer.from_geometry (fun c => .ok c) (.point ⟨0, 0⟩) "a"
          none "s" "t" 0).2).1 = .ok u1 ∧
    ((Layers.new.add u1 0).2.1.data.map fun layer => layer.color)
      = [⟨255, 127, 14⟩] ∧
    colorous_color_to_bevy_color (COLORS.getD ((1 - 1) % 10) ⟨0, 0, 0⟩)
      = ⟨31, 119, 180⟩ ∧
    (⟨255, 127, 14⟩ : Color) ≠ ⟨31, 119, 180⟩ := by
  exact ⟨rfl, rfl, rfl, by decide⟩

/-- Claim C3 amended: colors are drawn from the fixed ordered 10-color
`colorous::CATEGORY10` palette (pairwise distinct) by the process-global
counter taken modulo 10; the counter is shared by all stores and
incremented exactly once per successful candidate creation
(`UnassignedLayer::from_geometry`), not per `Layers::add`; `add` stores the
candidate's color verbatim at the top of the order, so the k-th candidate
created process-wide receives `palette[(k-1) mod 10]` regardless of which
store it is later added to. -/
theorem c3_palette_global_counter (f : Coord → Except String Coord)
    (g : Geometry) (name : String) (metadata : Option Metadata)
    (s t : String) (counter : Nat) (u : UnassignedLayer)
    (hok : (UnassignedLayer.from_geometry f g name metadata s t counter).1
      = .ok u) :
    COLORS.length = 10 ∧
    COLORS.Nodup ∧
    u.color = colorous_color_to_bevy_color (COLORS.getD (counter % 10) ⟨0, 0, 0⟩) ∧
    (UnassignedLayer.from_geometry f g name metadata s t counter).2
      = (counter + 1) % USIZE_SIZE ∧
    (∀ (l₀ : Layers) (s₀ : Nat),
      ((l₀.add u s₀).2.1.data.map fun layer => layer.color).getLast?
        = some u.color) := by
  obtain ⟨g', -, -, -, hcolor, -, hcounter⟩ := from_geometry_ok hok
  refine ⟨rfl, by decide, hcolor, hcounter, ?_⟩
  intro l₀ s₀
  simp [Layers.add, LayerId.fresh, mkLayer, List.getLast?_append]

/-- Claim C3 witness: the amended statement at the first candidate created by a
fresh process (counter 0). -/
theorem c3_witness :
    COLORS.length = 10 ∧
    u0.color = colorous_color_to_bevy_color (COLORS.getD (0 % 10) ⟨0, 0, 0⟩) ∧
    ((Layers.new.add u0 5).2.1.data.map fun layer => layer.color).getLast?
      = some u0.color := by
  have h := c3_palette_global_counter (fun c => .ok c) (.point ⟨0, 0⟩) "a"
    none "s" "t" 0 u0 rfl
  exact ⟨h.1, h.2.2.1, h.2.2.2.2 Layers.new 5⟩

theorem add_all_ids (us : List UnassignedLayer) :
    ∀ (l : Layers) (s : Nat),
      (l.add_all us s).1 = List.range' s us.length := by
  induction us with
  | nil => intro l s; rfl
  | cons u rest ih =>
    intro l s
    simp only [Layers.add_all, Layers.add, LayerId.fresh, List.length_cons,
      List.range'_succ]
    exact congrArg (List.cons s) (ih _ (s + 1))

theorem add_all_data (us : List UnassignedLayer) :
    ∀ (l : Layers) (s : Nat),
      (l.add_all us s).2.1.data
        = l.data ++ List.zipWith mkLayer us (List.range' s us.length) := by
  induction us with
  | nil => intro l s; simp [Layers.add_all]
  | cons u rest ih =>
    intro l s
    simp only [Layers.add_all, Layers.add, LayerId.fresh, List.length_cons,
      List.range'_succ, List.zipWith_cons_cons]
    rw [ih]
    simp

theorem add_all_visible (us : List UnassignedLayer) :
    ∀ (l : Layers) (s : Nat),
      (∀ la ∈ l.data, la.visible = true) →
      (∀ u ∈ us, u.visible = true) →
      ∀ la ∈ (l.add_all us s).2.1.data, la.visible = true := by
  induction us with
  | nil => intro l s hl _ la hm; exact hl la hm
  | cons u rest ih =>
    intro l s hl hu la hm
    simp only [Layers.add_all, Layers.add, LayerId.fresh] at hm
    refine ih _ (s + 1) ?_ (fun v hv => hu v (List.mem_cons_of_mem u hv)) la hm
    intro la' hm'
    rcases List.mem_append.mp hm' with h | h
    · exact hl la' h
    · rcases List.mem_singleton.mp h with rfl
      exact hu u (List.mem_cons_self u rest)

/-- Claim C5: adding N candidates to a fresh store yields N pairwise distinct
ids and `count() == N`; each `add` appends its layer at the top (last
position) keeping the candidate's fields (in particular `visible`, which
`from_geometry` always sets to `true`), and returns the new layer's id. -/
theorem c5_add_distinct_ids (us : List UnassignedLayer) (s : Nat)
    (hvis : ∀ u ∈ us, u.visible = true) :
    (Layers.new.add_all us s).1.Nodup ∧
    (Layers.new.add_all us s).1.length = us.length ∧
    (Layers.new.add_all us s).2.1.count = us.length ∧
    (∀ la ∈ (Layers.new.add_all us s).2.1.data, la.visible = true) ∧
    (∀ (l₀ : Layers) (u : UnassignedLayer) (s₀ : Nat),
      (l₀.add u s₀).2.1.data = l₀.data ++ [mkLayer u (l₀.add u s₀).1] ∧
      (mkLayer u (l₀.add u s₀).1).visible = u.visible ∧
      (mkLayer u (l₀.add u s₀).1).id = (l₀.add u s₀).1 ∧
      (l₀.add u s₀).2.1.count = l₀.count + 1) := by
  refine ⟨?_, ?_, ?_, ?_, ?_⟩
  · rw [add_all_ids]
    exact List.nodup_range' s us.length
  · rw [add_all_ids]
    simp
  · show (Layers.new.add_all us s).2.1.data.length = us.length
    rw [add_all_data]
    simp [List.length_zipWith, Layers.new]
  · exact add_all_visible us Layers.new s (fun la h => absurd h (by simp [Layers.new])) hvis
  · intro l₀ u s₀
    exact ⟨rfl, rfl, rfl, by simp [Layers.add, Layers.count, LayerId.fresh]⟩

/-- Claim C5 witness: two well-formed candidates added to a fresh store give two
distinct ids and a count of 2. -/
theorem c5_witness :
    (Layers.new.add_all [u0, u1] 0).1.Nodup ∧
    (Layers.new.add_all [u0, u1] 0).1.length = 2 ∧
    (Layers.new.add_all [u0, u1] 0).2.1.count = 2 ∧
    (∀ la ∈ (Layers.new.add_all [u0, u1] 0).2.1.data, la.visible = true) := by
  have h := c5_add_distinct_ids [u0, u1] 0 (by decide)
  exact ⟨h.1, h.2.1, h.2.2.1, h.2.2.2.1⟩

/-- `USIZE_SIZE` as a numeral, for `omega`. -/
theorem usize_size_eq : USIZE_SIZE = 18446744073709551616 := by
  norm_num [USIZE_SIZE]

/-- Claim C6: a successful `move_layer` (one whose target neighbour position
exists) swaps the addressed layer with its neighbour one step in the given
direction (`Up` with position `i + 1`, `Down` with position `i - 1`),
leaves every other position unchanged, preserves count and selection, and
emits exactly two z-index-updated events: first the moved layer's id, then
the swapped neighbour's id. -/
theorem c6_move_layer_swap (l : Layers) (layer_id : LayerId)
    (d : MoveDirection) (layer : Layer) (i : Nat)
    (hget : l.get_with_z_index layer_id = some (layer, i))
    (hcount : l.count < USIZE_SIZE)
    (hin : new_z_index_of i d < l.count) :
    ∃ other : Layer,
      l.data.get? (new_z_index_of i d) = some other ∧
      (l.move_layer layer_id d).2 = [layer_id, other.id] ∧
      (l.move_layer layer_id d).1.data.get? (new_z_index_of i d) = some layer ∧
      (l.move_layer layer_id d).1.data.get? i = some other ∧
      (∀ k, k ≠ i → k ≠ new_z_index_of i d →
        (l.move_layer layer_id d).1.data.get? k = l.data.get? k) ∧
      (l.move_layer layer_id d).1.count = l.count ∧
      (l.move_layer layer_id d).1.selected_layer_id = l.selected_layer_id ∧
      (d = .up → new_z_index_of i d = i + 1) ∧
      (d = .down → 1 ≤ i ∧ new_z_index_of i d = i - 1) := by
  obtain ⟨hidx, hq⟩ := get_with_z_index_eq_some.mp hget
  have hi : i < l.data.length := get_index_lt hidx
  have hlen : l.data.length < USIZE_SIZE := hcount
  have hdir : (d = .up → new_z_index_of i d = i + 1) ∧
      (d = .down → 1 ≤ i ∧ new_z_index_of i d = i - 1) := by
    constructor
    · rintro rfl
      simp only [new_z_index_of, usize_size_eq] at hin ⊢
      rw [usize_size_eq] at hlen
      have : new_z_index_of i .up < l.data.length := hin
      simp only [new_z_index_of, usize_size_eq] at this
      omega
    · rintro rfl
      have : new_z_index_of i .down < l.data.length := hin
      simp only [new_z_index_of, usize_size_eq] at this ⊢
      rw [usize_size_eq] at hlen
      omega
  have hne : i ≠ new_z_index_of i d := by
    cases d with
    | up => have := hdir.1 rfl; omega
    | down => have := hdir.2 rfl; omega
  have hj : new_z_index_of i d < l.data.length := hin
  cases hq2 : l.data.get? (new_z_index_of i d) with
  | none =>
    rw [List.get?_eq_getElem?, List.getElem?_eq_none_iff] at hq2
    omega
  | some other =>
    have hmv : l.move_layer layer_id d =
        ({ l with data := (l.data.set i other).set (new_z_index_of i d) layer },
         [layer_id, other.id]) := by
      unfold Layers.move_layer
      simp only [hget, hq2]
    have hq2' : l.data[new_z_index_of i d]? = some other := by
      rw [← List.get?_eq_getElem?]
      exact hq2
    refine ⟨other, rfl, by rw [hmv], ?_, ?_, ?_, ?_, by rw [hmv], hdir.1, hdir.2⟩
    · rw [hmv]
      simp only [List.get?_eq_getElem?] at hq ⊢
      rw [List.getElem?_set_self', List.getElem?_set_ne hne, hq2']
      rfl
    · rw [hmv]
      simp only [List.get?_eq_getElem?] at hq ⊢
      rw [List.getElem?_set_ne (Ne.symm hne), List.getElem?_set_self', hq]
      rfl
    · intro k hki hkn
      rw [hmv]
      simp only [List.get?_eq_getElem?]
      rw [List.getElem?_set_ne (fun h => hkn h.symm),
        List.getElem?_set_ne (fun h => hki h.symm)]
    · rw [hmv]
      simp [Layers.count]

/-- Claim C6 witness: in a 2-layer store, moving the bottom layer `Up` swaps the
two layers and emits exactly the two z-index-updated events. -/
theorem c6_witness :
    ∃ other : Layer,
      (Layers.mk [la0, la1] none).data.get? (new_z_index_of 0 .up) = some other ∧
      ((Layers.mk [la0, la1] none).move_layer 0 .up).2 = [0, other.id] ∧
      ((Layers.mk [la0, la1] none).move_layer 0 .up).1.data.get?
        (new_z_index_of 0 .up) = some la0 ∧
      ((Layers.mk [la0, la1] none).move_layer 0 .up).1.data.get? 0 = some other ∧
      (∀ k, k ≠ 0 → k ≠ new_z_index_of 0 .up →
        ((Layers.mk [la0, la1] none).move_layer 0 .up).1.data.get? k
          = (Layers.mk [la0, la1] none).data.get? k) ∧
      ((Layers.mk [la0, la1] none).move_layer 0 .up).1.count
        = (Layers.mk [la0, la1] none).count ∧
      ((Layers.mk [la0, la1] none).move_layer 0 .up).1.selected_layer_id
        = (Layers.mk [la0, la1] none).selected_layer_id ∧
      (MoveDirection.up = .up → new_z_index_of 0 .up = 0 + 1) ∧
      (MoveDirection.up = .down → 1 ≤ 0 ∧ new_z_index_of 0 .up = 0 - 1) :=
  c6_move_layer_swap ⟨[la0, la1], none⟩ 0 .up la0 0 (by decide)
    (by rw [usize_size_eq]; norm_num [Layers.count])
    (by rw [show new_z_index_of 0 .up = 1 by decide]; norm_num [Layers.count])

theorem toggle_step {l : Layers} {layer_id : LayerId} {layer : Layer}
    {i : Nat} (hget : l.get_with_z_index layer_id = some (layer, i)) :
    l.toggle_layer_visibility layer_id =
      ({ l with data := l.data.set i { layer with visible := !layer.visible } },
       if layer.visible then ([], [layer_id]) else ([layer_id], [])) := by
  unfold Layers.toggle_layer_visibility
  simp only [hget]
  cases hv : layer.visible <;> simp [hv]

/-- Claim C9: toggling a present layer's visibility twice restores the store
exactly (the flag and everything else), and across the two events the
handler emits exactly one became-visible event and exactly one
became-hidden event, each carrying the layer's id; the event of the first
toggle is determined by the starting state (hidden-event first when the
layer was visible, visible-event first otherwise) — two distinct event
streams, not one generic one. -/
theorem c9_toggle_twice (l : Layers) (layer_id : LayerId) (layer : Layer)
    (i : Nat) (hget : l.get_with_z_index layer_id = some (layer, i)) :
    (l.toggle_layer_visibility_events [layer_id, layer_id]).1 = l ∧
    (l.toggle_layer_visibility_events [layer_id, layer_id]).2.1 = [layer_id] ∧
    (l.toggle_layer_visibility_events [layer_id, layer_id]).2.2 = [layer_id] ∧
    ((l.toggle_layer_visibility layer_id).2 =
      if layer.visible then ([], [layer_id]) else ([layer_id], [])) := by
  obtain ⟨hidx, hq⟩ := get_with_z_index_eq_some.mp hget
  have hlid : layer.id = layer_id := get_with_z_index_layer_id hget
  set layer' : Layer := { layer with visible := !layer.visible } with hlayer'
  have hidx₂ :
      Layers.get_index { l with data := l.data.set i layer' } layer_id
        = some i := by
    unfold Layers.get_index at hidx ⊢
    exact findIdx?_set_same hidx (by simp [hlayer', hlid])
  have hq₂ :
      ({ l with data := l.data.set i layer' } : Layers).data.get? i
        = some layer' := by
    simp only [List.get?_eq_getElem?] at hq ⊢
    rw [List.getElem?_set_self', hq]
    rfl
  have hget₂ :
      ({ l with data := l.data.set i layer' } : Layers).get_with_z_index
        layer_id = some (layer', i) :=
    get_with_z_index_eq_some.mpr ⟨hidx₂, hq₂⟩
  have hlayer'' : ({ layer' with visible := !layer'.visible } : Layer) = layer := by
    cases layer
    simp [hlayer']
  have hdata₂ : (l.data.set i layer').set i layer = l.data := by
    rw [List.set_set]
    exact list_set_get?_self hq
  have ht1 := toggle_step hget
  rw [← hlayer'] at ht1
  have ht2 := toggle_step hget₂
  rw [hlayer''] at ht2
  rw [hdata₂] at ht2
  have hres : ({ l with data := l.data } : Layers) = l := rfl
  rw [hres] at ht2
  by_cases hv : layer.visible = true
  · have hv' : layer'.visible = false := by simp [hlayer', hv]
    rw [hv'] at ht2
    refine ⟨?_, ?_, ?_, ?_⟩ <;>
      simp [Layers.toggle_layer_visibility_events, List.foldl_cons,
        List.foldl_nil, ht1, ht2, hv]
  · have hvf : layer.visible = false := by
      cases hb : layer.visible
      · rfl
      · exact absurd hb hv
    have hv' : layer'.visible = true := by simp [hlayer', hvf]
    rw [hv'] at ht2
    refine ⟨?_, ?_, ?_, ?_⟩ <;>
      simp [Layers.toggle_layer_visibility_events, List.foldl_cons,
        List.foldl_nil, ht1, ht2, hvf]

/-- Claim C9 witness: a store with one visible layer; two toggles restore it and
emit one hidden event then one visible event. -/
theorem c9_witness :
    ((Layers.mk [la0] none).toggle_layer_visibility_events [0, 0]).1
      = Layers.mk [la0] none ∧
    ((Layers.mk [la0] none).toggle_layer_visibility_events [0, 0]).2.1 = [0] ∧
    ((Layers.mk [la0] none).toggle_layer_visibility_events [0, 0]).2.2 = [0] ∧
    (((Layers.mk [la0] none).toggle_layer_visibility 0).2 =
      if la0.visible then ([], [0]) else ([0], [])) :=
  c9_toggle_twice ⟨[la0], none⟩ 0 la0 0 (by decide)

/-- Claim C8: layer creation fails with the `BoundingBox` error exactly when the
input geometry has no derivable bounding rectangle (`bounding_rect()`
yields none, e.g. an empty geometry); on success each stored feature's
`bounding_rect` is the minimal axis-aligned rectangle enclosing that
feature's geometry; and — since no store operation ever mutates a layer's
features — every layer of every reachable store satisfies this equality. -/
theorem c8_bounding_rect_invariant (f : Coord → Except String Coord)
    (g : Geometry) (name : String) (metadata : Option Metadata)
    (s t : String) (counter : Nat) :
    ((UnassignedLayer.from_geometry f g name metadata s t counter).1
        = .error .boundingBox ↔ g.bounding_rect = none) ∧
    (∀ u, (UnassignedLayer.from_geometry f g name metadata s t counter).1
        = .ok u →
      u.unprojected_feature.WellFormed ∧ u.projected_feature.WellFormed ∧
      u.unprojected_feature.geometry = g) ∧
    (∀ l, Reachable l → ∀ layer ∈ l.data, layer.WellFormed) := by
  refine ⟨from_geometry_boundingBox_iff, ?_, fun l hr => reachable_layers_wf hr⟩
  intro u hok
  obtain ⟨g', -, hu, hp, -, -, -⟩ := from_geometry_ok hok
  obtain ⟨hwfu, hgeo, -⟩ := feature_from_geometry_ok hu
  obtain ⟨hwfp, -, -⟩ := feature_from_geometry_ok hp
  exact ⟨hwfu, hwfp, hgeo⟩

/-- Claim C8 witness: the empty multi-point geometry makes creation fail with
the `BoundingBox` error; the point geometry succeeds with a well-formed
candidate; and the empty store trivially satisfies the invariant. -/
theorem c8_witness :
    (UnassignedLayer.from_geometry (fun c => .ok c) (.multiPoint []) "n"
        none "s" "t" 0).1 = .error .boundingBox ∧
    Geometry.bounding_rect (.multiPoint []) = none ∧
    u0.unprojected_feature.WellFormed ∧
    u0.projected_feature.WellFormed ∧
    (∀ layer ∈ Layers.new.data, layer.WellFormed) := by
  have h1 := (c8_bounding_rect_invariant (fun c => .ok c) (.multiPoint [])
    "n" none "s" "t" 0).1.mpr rfl
  have h2 := (c8_bounding_rect_invariant (fun c => .ok c) (.point ⟨0, 0⟩)
    "a" none "s" "t" 0).2.1 u0 rfl
  have h3 := (c8_bounding_rect_invariant (fun c => .ok c) (.point ⟨0, 0⟩)
    "a" none "s" "t" 0).2.2 Layers.new Reachable.new
  exact ⟨h1, rfl, h2.1, h2.2.1, h3⟩

end RgisLayers

